import Mathlib

/-!
Verification of the per-file "bake" engine and batch drivers of `pics.py`.

The source program batch-compresses images: for each candidate file it
re-encodes into a temp file, decides win/keep by size, and commits a marked
output (`photo.jpg` -> `photo[D].jpg`) or discards the temp file.

Modelling conventions:
* A file name is a `List Char`; a path is a directory (list of components,
  never inspected beyond equality and prefix tests) plus a name.
* The filesystem is an association list from paths to byte contents
  (`List Nat`); a path holds at most one file.  `stat().st_size` is the
  length of the contents.  Filesystem operations other than reading a
  missing file are assumed to succeed (no disk-full / permission faults).
* The Pillow codec is external; it is modelled as an oracle mapping the
  source bytes and the computed save options to one of: an open/decode
  error (raised by `Image.open`, before `save_image_to_tmp` runs), a
  successful save producing output bytes, or a save error that may leave a
  partially written temp file.  The in-memory image transforms (alpha
  flattening, RGB conversion) are internal to the oracle.
* Messages are modelled by the format-string skeleton of the source's
  f-strings; the three shapes begin with three distinct literal characters
  in the source, so the constructors are faithfully disjoint.  The
  `fmt_bytes` float rendering inside the win message is abstracted to the
  raw byte counts it renders.
* `rglob` enumeration order is modelled as the association list's order.
-/

/-! ## Paths and Python `pathlib` name splitting -/

/-- A filesystem path: directory components plus a file name. -/
structure FPath where
  dir : List String
  name : List Char
deriving DecidableEq, Repr

/-- File contents as raw bytes. -/
abbrev Bytes := List Nat

/-- Split a REVERSED name at its first `'.'` (the last dot of the name):
returns (chars after the last dot, reversed; chars before it, reversed),
or `none` when there is no dot. -/
def splitRevAtDot : List Char → Option (List Char × List Char)
  | [] => none
  | c :: rest =>
    if c = '.' then some ([], rest)
    else
      match splitRevAtDot rest with
      | none => none
      | some (b, a) => some (c :: b, a)

/-- Python `pathlib.PurePath.stem`: the name up to the last dot, provided
that dot is neither the first nor the last character; otherwise the whole
name. -/
def pyStem (name : List Char) : List Char :=
  match splitRevAtDot name.reverse with
  | none => name
  | some (b, a) => if a = [] ∨ b = [] then name else a.reverse

/-- Python `pathlib.PurePath.suffix`: the last-dot extension including the
dot, when the last dot is neither first nor last character; else empty. -/
def pySuffix (name : List Char) : List Char :=
  match splitRevAtDot name.reverse with
  | none => []
  | some (b, a) => if a = [] ∨ b = [] then [] else '.' :: b.reverse

/-- `str.lower()` restricted to ASCII, as `Char.toLower` (Python agrees on
ASCII names). -/
def strLower (s : List Char) : List Char := s.map Char.toLower

/-- `Path.suffix`. -/
def FPath.suffix (p : FPath) : List Char := pySuffix p.name

/-- `Path.stem`. -/
def FPath.stem (p : FPath) : List Char := pyStem p.name

/-! ## The filesystem model -/

/-- The filesystem: an association list mapping each path to the bytes of
the file stored there.  A path holds at most one file. -/
abbrev FS := List (FPath × Bytes)

/-- Contents at a path (`none` when no file exists there). -/
def FS.lookup : FS → FPath → Option Bytes
  | [], _ => none
  | (q, c) :: rest, p => if p = q then some c else FS.lookup rest p

/-- `unlink`: remove any file at `p`. -/
def FS.erase (fs : FS) (p : FPath) : FS :=
  fs.filter (fun e => !(decide (e.1 = p)))

/-- Write bytes `c` at path `p`, replacing any existing file. -/
def FS.write (fs : FS) (p : FPath) (c : Bytes) : FS :=
  (p, c) :: FS.erase fs p

theorem FS.lookup_write_self (fs : FS) (p : FPath) (c : Bytes) :
    FS.lookup (FS.write fs p c) p = some c := by
  simp [FS.write, FS.lookup]

theorem FS.erase_cons_hit (e : FPath × Bytes) (rest : FS) (p : FPath) (he : e.1 = p) :
    FS.erase (e :: rest) p = FS.erase rest p := by
  simp [FS.erase, List.filter_cons, he]

theorem FS.erase_cons_miss (e : FPath × Bytes) (rest : FS) (p : FPath) (he : ¬ e.1 = p) :
    FS.erase (e :: rest) p = e :: FS.erase rest p := by
  simp [FS.erase, List.filter_cons, he]

theorem FS.lookup_erase_ne (fs : FS) (p q : FPath) (h : q ≠ p) :
    FS.lookup (FS.erase fs p) q = FS.lookup fs q := by
  induction fs with
  | nil => rfl
  | cons e rest ih =>
    by_cases he : e.1 = p
    · rw [FS.erase_cons_hit e rest p he, ih]
      have hq : ¬ q = e.1 := fun hh => h (hh.trans he)
      simp [FS.lookup, hq]
    · rw [FS.erase_cons_miss e rest p he]
      by_cases hq : q = e.1
      · simp [FS.lookup, hq]
      · simp only [FS.lookup, if_neg hq]
        exact ih

theorem FS.lookup_erase_self (fs : FS) (p : FPath) :
    FS.lookup (FS.erase fs p) p = none := by
  induction fs with
  | nil => rfl
  | cons e rest ih =>
    by_cases he : e.1 = p
    · rw [FS.erase_cons_hit e rest p he]; exact ih
    · rw [FS.erase_cons_miss e rest p he]
      simp only [FS.lookup, if_neg (fun hq : p = e.1 => he hq.symm)]
      exact ih

theorem FS.lookup_write_ne (fs : FS) (p q : FPath) (c : Bytes) (h : q ≠ p) :
    FS.lookup (FS.write fs p c) q = FS.lookup fs q := by
  simp only [FS.write, FS.lookup, if_neg h]
  exact FS.lookup_erase_ne fs p q h

theorem FS.erase_idem (fs : FS) (p : FPath) :
    FS.erase (FS.erase fs p) p = FS.erase fs p := by
  simp [FS.erase, List.filter_filter]

theorem FS.erase_write_self (fs : FS) (p : FPath) (c : Bytes) :
    FS.erase (FS.write fs p c) p = FS.erase fs p := by
  simp [FS.write, FS.erase, List.filter_filter]

theorem FS.erase_of_lookup_none (fs : FS) (p : FPath) (h : FS.lookup fs p = none) :
    FS.erase fs p = fs := by
  induction fs with
  | nil => rfl
  | cons e rest ih =>
    simp only [FS.lookup] at h
    by_cases hq : p = e.1
    · rw [if_pos hq] at h; cases h
    · rw [if_neg hq] at h
      rw [FS.erase_cons_miss e rest p (fun hh => hq hh.symm), ih h]

/-- When the looked-up content is rewritten at any path, a lookup that
already returned `some c` still returns `some c` after `write p c`. -/
theorem FS.lookup_write_same (fs : FS) (p q : FPath) (c : Bytes)
    (h : FS.lookup fs q = some c) :
    FS.lookup (FS.write fs p c) q = some c := by
  by_cases hq : q = p
  · subst hq; exact FS.lookup_write_self fs q c
  · rw [FS.lookup_write_ne fs p q c hq]; exact h

/-! ## Filename helpers of `pics.py` (lines 11-25) -/

/-- The completion tag, the literal string `[D]`. -/
def dTag : List Char := ['[', 'D', ']']

/-- The temp-name inserted piece, the literal string `.tmp`. -/
def tmpTag : List Char := ['.', 't', 'm', 'p']

/-- The sentinel format string `keep`. -/
def keepChars : List Char := ['k', 'e', 'e', 'p']

/-- `IMG_EXTS = {".jpg", ".jpeg", ".png", ".webp"}` (line 11). -/
def IMG_EXTS : List (List Char) :=
  [['.', 'j', 'p', 'g'], ['.', 'j', 'p', 'e', 'g'],
   ['.', 'p', 'n', 'g'], ['.', 'w', 'e', 'b', 'p']]

/-- `p.suffix.lower() in IMG_EXTS` (lines 49, 55, 254). -/
def extOk (p : FPath) : Bool := decide (strLower (FPath.suffix p) ∈ IMG_EXTS)

/-- `is_marked_d` (lines 15-16): `"[D]" in path.stem`. -/
def is_marked_d (path : FPath) : Bool := decide (dTag <:+: pyStem path.name)

/-- `mark_name` (lines 18-20): `path.with_name(f"{path.stem}[D]{new_ext}")`. -/
def mark_name (path : FPath) (new_ext : List Char) : FPath :=
  ⟨path.dir, pyStem path.name ++ dTag ++ new_ext⟩

/-- `safe_tmp_name` (lines 22-25):
`final_path.with_name(final_path.stem + ".tmp" + final_path.suffix)`. -/
def safe_tmp_name (final_path : FPath) : FPath :=
  ⟨final_path.dir, pyStem final_path.name ++ tmpTag ++ pySuffix final_path.name⟩

/-! ## The codec collaborator and `save_image_to_tmp` (lines 58-88) -/

/-- The keyword arguments `save_image_to_tmp` computes for `im.save`
(lines 60-81). -/
structure SaveKwargs where
  quality : Option Nat
  optimize : Bool
  progressive : Bool
  method : Option Nat
deriving DecidableEq, Repr

/-- The `save_kwargs` computation of `save_image_to_tmp` (lines 59-81),
keyed on `ext = tmp_path.suffix.lower()`. -/
def save_kwargs (ext : List Char) (quality : Nat) : SaveKwargs :=
  if ext = ['.', 'j', 'p', 'g'] ∨ ext = ['.', 'j', 'p', 'e', 'g'] then
    ⟨some quality, true, true, none⟩
  else if ext = ['.', 'w', 'e', 'b', 'p'] then
    ⟨some quality, false, false, some 6⟩
  else if ext = ['.', 'p', 'n', 'g'] then
    ⟨none, true, false, none⟩
  else ⟨none, false, false, none⟩

/-- Observable behaviour of one `Image.open` + `im.save` round trip:
`openErr` models an exception from `Image.open(src)` (raised before
`save_image_to_tmp` runs); `saveOk out` a successful `im.save` writing
`out`; `saveErr leftover` an exception from `im.save` that may leave a
partially written file behind. -/
inductive CodecBehavior where
  | openErr
  | saveOk (out : Bytes)
  | saveErr (leftover : Option Bytes)

/-- The external Pillow codec, as an oracle from the source bytes and the
computed save options to the observable behaviour.  The in-memory
transforms of lines 62-68 (alpha flattening onto black, RGB conversion)
happen inside the oracle. -/
abbrev Codec := Bytes → SaveKwargs → CodecBehavior

/-! ## `bake_one` (lines 90-148) -/

/-- Options of `bake_one` other than the candidate path. -/
structure BakeOpts where
  output_fmt : List Char
  quality : Nat
  delete_original_on_win : Bool
  backup_dir : Option (List String)
  skip_if_marked : Bool

/-- Message skeletons of the f-strings returned by `bake_one`: the skip
message (line 104, prefix `⏭️`), the win message (line 144, prefix `✅`,
rendering both sizes through `fmt_bytes`), and the kept message (line 148,
prefix `↩️`).  The three source strings start with three distinct literal
characters, so the constructors are disjoint exactly when the strings are. -/
inductive Msg where
  | skip (name : List Char)
  | wonMsg (srcName finalName : List Char) (srcSize tmpSize : Nat)
  | kept (name : List Char)
deriving DecidableEq, Repr

/-- Exceptions `bake_one` can raise: `backupFail` a `shutil.copy2` failure
(line 119), `statFail` a `FileNotFoundError` from `src.stat()` (line 121),
`codecOpen` an `Image.open` error (line 123), `codecSave` an `im.save`
error (line 88), `tmpMissing` the `RuntimeError` of line 127. -/
inductive BakeErr where
  | backupFail
  | statFail
  | codecOpen
  | codecSave
  | tmpMissing
deriving DecidableEq, Repr

/-- The tuple `(won, message, src_size, out_size)` returned by `bake_one`
(line 99). -/
structure BakeRet where
  won : Bool
  msg : Msg
  srcSize : Nat
  outSize : Nat
deriving DecidableEq, Repr

/-- The target extension of lines 106-111: the candidate's lower-cased
suffix when `output_fmt == "keep"`, else `"." + output_fmt`. -/
def target_ext_of (src : FPath) (output_fmt : List Char) : List Char :=
  if output_fmt = keepChars then strLower (FPath.suffix src)
  else '.' :: output_fmt

/-- `final = mark_name(src, target_ext)` (line 113). -/
def bake_final (src : FPath) (output_fmt : List Char) : FPath :=
  mark_name src (target_ext_of src output_fmt)

/-- `tmp = safe_tmp_name(final)` (line 114). -/
def bake_tmp (src : FPath) (output_fmt : List Char) : FPath :=
  safe_tmp_name (bake_final src output_fmt)

/-- The save options `bake_one` hands the codec:
`save_kwargs` keyed on the temp path's lower-cased suffix (line 59). -/
def bake_kw (src : FPath) (o : BakeOpts) : SaveKwargs :=
  save_kwargs (strLower (FPath.suffix (bake_tmp src o.output_fmt))) o.quality

/-- Lines 126-148 of `bake_one`, from the `tmp.exists()` check on, in the
filesystem `fs₂` left by `save_image_to_tmp`: verify the temp file, read
its size, decide win/keep (lines 131-134), and commit (136-144) or discard
(146-148). -/
def bakeAfterSave (o : BakeOpts) (fs₂ : FS) (src final tmp : FPath) (src_size : Nat) :
    FS × Except BakeErr BakeRet :=
  match FS.lookup fs₂ tmp with
  | none => (fs₂, Except.error BakeErr.tmpMissing)   -- lines 126-127
  | some outC =>
    let tmp_size := outC.length
    -- wins rule (lines 131-134)
    let won : Bool :=
      if o.output_fmt = keepChars then decide (tmp_size < src_size) else true
    if won then
      -- lines 136-144
      let fs₃ := if (FS.lookup fs₂ final).isSome then FS.erase fs₂ final else fs₂
      let fs₄ := FS.write (FS.erase fs₃ tmp) final outC
      let fs₅ := if o.delete_original_on_win then FS.erase fs₄ src else fs₄
      (fs₅, Except.ok ⟨true, Msg.wonMsg src.name final.name src_size tmp_size,
                       src_size, tmp_size⟩)
    else
      -- lines 146-148
      (FS.erase fs₂ tmp, Except.ok ⟨false, Msg.kept src.name, src_size, src_size⟩)

/-- Lines 121-148 of `bake_one`, from `src.stat()` on: stat the source,
run the codec (where `save_image_to_tmp` first unlinks a stale temp file,
then `im.save` writes), then `bakeAfterSave`. -/
def bakeCore (codec : Codec) (o : BakeOpts) (fs : FS) (src final tmp : FPath) :
    FS × Except BakeErr BakeRet :=
  match FS.lookup fs src with
  | none => (fs, Except.error BakeErr.statFail)
  | some sc =>
    match codec sc (save_kwargs (strLower (FPath.suffix tmp)) o.quality) with
    | CodecBehavior.openErr =>
      -- `Image.open` raised: `save_image_to_tmp` never ran, nothing changed.
      (fs, Except.error BakeErr.codecOpen)
    | CodecBehavior.saveErr leftover =>
      -- stale temp unlinked (lines 85-86), then `im.save` raised,
      -- possibly leaving a partial file.
      (match leftover with
       | none => FS.erase fs tmp
       | some pc => FS.write (FS.erase fs tmp) tmp pc,
       Except.error BakeErr.codecSave)
    | CodecBehavior.saveOk out =>
      -- stale temp unlinked, then the save wrote `out` (lines 85-88).
      bakeAfterSave o (FS.write (FS.erase fs tmp) tmp out) src final tmp sc.length

/-- `bake_one` (lines 90-148): skip check (103-104), path computation
(106-114), optional backup (117-119, `mkdir` is a no-op on the file map,
`copy2` reads the source and writes it under the backup directory), then
`bakeCore`.  The filesystem in which the attempt ended is returned next to
the result, errors included, because the drivers keep running on it. -/
def bake_one (codec : Codec) (o : BakeOpts) (fs : FS) (src : FPath) :
    FS × Except BakeErr BakeRet :=
  if o.skip_if_marked && is_marked_d src then
    (fs, Except.ok ⟨false, Msg.skip src.name, 0, 0⟩)
  else
    match o.backup_dir with
    | some bd =>
      match FS.lookup fs src with
      | none => (fs, Except.error BakeErr.backupFail)
      | some c =>
        bakeCore codec o (FS.write fs ⟨bd, src.name⟩ c) src
          (bake_final src o.output_fmt) (bake_tmp src o.output_fmt)
    | none =>
      bakeCore codec o fs src (bake_final src o.output_fmt) (bake_tmp src o.output_fmt)

/-! ## Scanning and size measuring (lines 35-55) -/

/-- A path lies under a root directory when the root's components are a
prefix of its directory (how `rglob` reaches it). -/
def underRoot (root : List String) (p : FPath) : Bool := List.isPrefixOf root p.dir

/-- `folder_size_bytes` (lines 35-43): total bytes of every file under the
root. -/
def folder_size_bytes (fs : FS) (root : List String) : Nat :=
  ((fs.filter (fun e => underRoot root e.1)).map (fun e => e.2.length)).sum

/-- `iter_images_recursive` (lines 53-56): every file under the root whose
lower-cased suffix is a recognized image extension, in enumeration order. -/
def iter_images_recursive (fs : FS) (root : List String) : List FPath :=
  (fs.filter (fun e => underRoot root e.1 && extOk e.1)).map (fun e => e.1)

/-! ## The per-candidate driver loops (lines 178-196 and 267-285) -/

/-- Mutable state of a driver loop: the filesystem plus the
`baked`/`kept`/`errors` tallies. -/
structure LoopAcc where
  fs : FS
  baked : Nat
  kept : Nat
  errors : Nat
deriving DecidableEq, Repr

/-- The per-file loop of `run_folder_mode` (lines 178-196): call
`bake_one`, count a win or a keep, catch any exception as an error, and
keep going. -/
def run_folder_loop (codec : Codec) (o : BakeOpts) : FS → List FPath → LoopAcc
  | fs, [] => ⟨fs, 0, 0, 0⟩
  | fs, src :: rest =>
    match bake_one codec o fs src with
    | (fs₁, Except.ok r) =>
      let acc := run_folder_loop codec o fs₁ rest
      if r.won then { acc with baked := acc.baked + 1 }
      else { acc with kept := acc.kept + 1 }
    | (fs₁, Except.error _) =>
      let acc := run_folder_loop codec o fs₁ rest
      { acc with errors := acc.errors + 1 }

/-- The per-file loop of `run_all_mode` (lines 267-285), textually the
same control flow as the folder-mode loop. -/
def run_all_loop (codec : Codec) (o : BakeOpts) : FS → List FPath → LoopAcc
  | fs, [] => ⟨fs, 0, 0, 0⟩
  | fs, src :: rest =>
    match bake_one codec o fs src with
    | (fs₁, Except.ok r) =>
      let acc := run_all_loop codec o fs₁ rest
      if r.won then { acc with baked := acc.baked + 1 }
      else { acc with kept := acc.kept + 1 }
    | (fs₁, Except.error _) =>
      let acc := run_all_loop codec o fs₁ rest
      { acc with errors := acc.errors + 1 }

/-- The candidate filter of `run_all_mode` (lines 253-256): keep the
recognized extensions, and when `skip_if_marked` drop the files already
carrying the tag. -/
def all_mode_files (skip_if_marked : Bool) (all_files : List FPath) : List FPath :=
  let files := all_files.filter (fun p => extOk p)
  if skip_if_marked then files.filter (fun p => !(is_marked_d p)) else files

/-! ## `run_all_mode` (lines 226-300) -/

/-- The confirmation phrase required by the `all` + delete gate
(line 235). -/
def required_confirm : List Char :=
  ['I', ' ', 'U', 'N', 'D', 'E', 'R', 'S', 'T', 'A', 'N', 'D', ' ',
   'T', 'H', 'I', 'S', ' ', 'D', 'E', 'L', 'E', 'T', 'E', 'S', ' ',
   'O', 'R', 'I', 'G', 'I', 'N', 'A', 'L', 'S']

/-- Python `str.strip()`: drop leading and trailing whitespace. -/
def pyStrip (s : List Char) : List Char :=
  ((s.dropWhile Char.isWhitespace).reverse.dropWhile Char.isWhitespace).reverse

/-- The summary printed by `run_all_mode` (lines 291-300), except the
float percentage (print-level formatting). -/
structure AllSummary where
  total : Nat
  baked : Nat
  kept : Nat
  errors : Nat
  total_before : Nat
  total_after : Nat
deriving DecidableEq, Repr

/-- Result of `run_all_mode`: `refused` is the `SystemExit` of the
confirmation gate (lines 236-239), `noRoots` the `SystemExit` of line 243;
both carry the untouched input filesystem.  `done` carries the final
filesystem and the summary. -/
inductive AllResult where
  | refused (fs : FS)
  | noRoots (fs : FS)
  | done (fs : FS) (summary : AllSummary)
deriving DecidableEq, Repr

/-- `run_all_mode` (lines 226-300).  `default_all_roots` (lines 213-224)
is environment-derived (`Path.home()` plus existence checks), so the list
of existing roots is an explicit parameter. -/
def run_all_mode (codec : Codec) (o : BakeOpts) (fs : FS)
    (roots : List (List String)) (confirm : List Char) : AllResult :=
  if o.delete_original_on_win = true ∧ pyStrip confirm ≠ required_confirm then
    AllResult.refused fs
  else if roots = [] then
    AllResult.noRoots fs
  else
    let total_before := (roots.map (fun r => folder_size_bytes fs r)).sum
    let all_files := (roots.map (fun r => iter_images_recursive fs r)).flatten
    let files := all_mode_files o.skip_if_marked all_files
    let acc := run_all_loop codec o fs files
    let total_after := (roots.map (fun r => folder_size_bytes acc.fs r)).sum
    AllResult.done acc.fs
      ⟨files.length, acc.baked, acc.kept, acc.errors, total_before, total_after⟩

/-! ## Lemmas: Python name splitting -/

theorem splitRevAtDot_no_dot (e rest : List Char) (h : '.' ∉ e) :
    splitRevAtDot (e ++ '.' :: rest) = some (e, rest) := by
  induction e with
  | nil => simp [splitRevAtDot]
  | cons c e' ih =>
    have hc : ¬ c = '.' := fun hh => h (by rw [hh]; exact List.mem_cons_self _ _)
    have h' : '.' ∉ e' := fun hm => h (List.mem_cons_of_mem c hm)
    simp [splitRevAtDot, hc, ih h']

theorem pyStem_of_wf (st e : List Char) (hd : '.' ∉ e) (he : e ≠ []) (hs : st ≠ []) :
    pyStem (st ++ '.' :: e) = st := by
  have hrev : (st ++ '.' :: e).reverse = e.reverse ++ '.' :: st.reverse := by
    simp
  have hd' : '.' ∉ e.reverse := by simpa using hd
  unfold pyStem
  rw [hrev, splitRevAtDot_no_dot _ _ hd']
  simp [he, hs]

theorem pySuffix_of_wf (st e : List Char) (hd : '.' ∉ e) (he : e ≠ []) (hs : st ≠ []) :
    pySuffix (st ++ '.' :: e) = '.' :: e := by
  have hrev : (st ++ '.' :: e).reverse = e.reverse ++ '.' :: st.reverse := by
    simp
  have hd' : '.' ∉ e.reverse := by simpa using hd
  unfold pySuffix
  rw [hrev, splitRevAtDot_no_dot _ _ hd']
  simp [he, hs]

theorem append_cons_ne_of_head_ne (st : List Char) (a b : Char) (h : a ≠ b)
    (xs ys : List Char) : st ++ a :: xs ≠ st ++ b :: ys := by
  intro hh
  have h2 : a :: xs = b :: ys := List.append_cancel_left hh
  injection h2 with h3 _
  exact h h3

/-! ## Lemmas: the paths computed by `bake_one` -/

/-- Under a well-formed candidate name `st ++ "." ++ e` and a well-formed
target extension `"." ++ g`, the final and temp paths of `bake_one` have
the shapes of the filename contract, and candidate, final and temp paths
are three distinct paths. -/
theorem bake_paths_spec (src : FPath) (o_fmt st e g : List Char)
    (hn : src.name = st ++ '.' :: e) (hd : '.' ∉ e) (he : e ≠ []) (hs : st ≠ [])
    (hg : target_ext_of src o_fmt = '.' :: g) (hgd : '.' ∉ g) (hgn : g ≠ []) :
    bake_final src o_fmt = ⟨src.dir, (st ++ dTag) ++ '.' :: g⟩ ∧
    bake_tmp src o_fmt = ⟨src.dir, ((st ++ dTag) ++ tmpTag) ++ '.' :: g⟩ ∧
    src.name ≠ (bake_final src o_fmt).name ∧
    src.name ≠ (bake_tmp src o_fmt).name ∧
    src ≠ bake_final src o_fmt ∧
    src ≠ bake_tmp src o_fmt ∧
    bake_final src o_fmt ≠ bake_tmp src o_fmt := by
  have hsd : st ++ dTag ≠ [] := by simp [dTag]
  have hf : bake_final src o_fmt = ⟨src.dir, (st ++ dTag) ++ '.' :: g⟩ := by
    unfold bake_final mark_name
    rw [hg, hn, pyStem_of_wf st e hd he hs]
  have ht : bake_tmp src o_fmt = ⟨src.dir, ((st ++ dTag) ++ tmpTag) ++ '.' :: g⟩ := by
    unfold bake_tmp safe_tmp_name
    rw [hf]
    simp only
    rw [pyStem_of_wf (st ++ dTag) g hgd hgn hsd, pySuffix_of_wf (st ++ dTag) g hgd hgn hsd]
  have hnf : src.name ≠ (bake_final src o_fmt).name := by
    rw [hf]
    simp only [hn]
    rw [show (st ++ dTag) ++ '.' :: g = st ++ '[' :: ('D' :: (']' :: ('.' :: g))) from by
      simp [dTag]]
    exact append_cons_ne_of_head_ne st '.' '[' (by decide) e ('D' :: (']' :: ('.' :: g)))
  have hnt : src.name ≠ (bake_tmp src o_fmt).name := by
    rw [ht]
    simp only [hn]
    rw [show ((st ++ dTag) ++ tmpTag) ++ '.' :: g
        = st ++ '[' :: ('D' :: (']' :: (tmpTag ++ '.' :: g))) from by
      simp [dTag]]
    exact append_cons_ne_of_head_ne st '.' '[' (by decide) e
      ('D' :: (']' :: (tmpTag ++ '.' :: g)))
  refine ⟨hf, ht, hnf, hnt,
    fun hh => hnf (congrArg FPath.name hh),
    fun hh => hnt (congrArg FPath.name hh), ?_⟩
  intro hh
  have h2 := congrArg (fun p => p.name.length) hh
  rw [hf, ht] at h2
  simp [tmpTag] at h2

/-! ## Lemmas: reducing `bake_one` along its paths -/

theorem FS.erase_cond (fs : FS) (p : FPath) :
    (if (FS.lookup fs p).isSome then FS.erase fs p else fs) = FS.erase fs p := by
  by_cases h : (FS.lookup fs p).isSome
  · rw [if_pos h]
  · rw [if_neg h]
    cases hl : FS.lookup fs p with
    | some c => rw [hl] at h; simp at h
    | none => exact (FS.erase_of_lookup_none fs p hl).symm

theorem bakeCore_of_saveOk (codec : Codec) (o : BakeOpts) (fs : FS)
    (src final tmp : FPath) (sc out : Bytes)
    (hsrc : FS.lookup fs src = some sc)
    (hc : codec sc (save_kwargs (strLower (FPath.suffix tmp)) o.quality) =
          CodecBehavior.saveOk out) :
    bakeCore codec o fs src final tmp =
      bakeAfterSave o (FS.write (FS.erase fs tmp) tmp out) src final tmp sc.length := by
  unfold bakeCore
  rw [hsrc]
  simp only [hc]

theorem bakeAfterSave_won (o : BakeOpts) (fs₂ : FS) (src final tmp : FPath)
    (outC : Bytes) (src_size : Nat)
    (htmp : FS.lookup fs₂ tmp = some outC)
    (hw : (if o.output_fmt = keepChars then decide (outC.length < src_size) else true)
          = true) :
    bakeAfterSave o fs₂ src final tmp src_size =
      ((if o.delete_original_on_win then
          FS.erase (FS.write (FS.erase (FS.erase fs₂ final) tmp) final outC) src
        else FS.write (FS.erase (FS.erase fs₂ final) tmp) final outC),
       Except.ok ⟨true, Msg.wonMsg src.name final.name src_size outC.length,
                  src_size, outC.length⟩) := by
  unfold bakeAfterSave
  rw [htmp]
  simp only [hw, if_true, FS.erase_cond]

theorem bakeAfterSave_kept (o : BakeOpts) (fs₂ : FS) (src final tmp : FPath)
    (outC : Bytes) (src_size : Nat)
    (htmp : FS.lookup fs₂ tmp = some outC)
    (hw : (if o.output_fmt = keepChars then decide (outC.length < src_size) else true)
          = false) :
    bakeAfterSave o fs₂ src final tmp src_size =
      (FS.erase fs₂ tmp, Except.ok ⟨false, Msg.kept src.name, src_size, src_size⟩) := by
  unfold bakeAfterSave
  rw [htmp]
  simp only [hw, Bool.false_eq_true, if_false]

theorem bake_one_to_core (codec : Codec) (o : BakeOpts) (fs : FS) (src : FPath)
    (sc : Bytes)
    (hskip : (o.skip_if_marked && is_marked_d src) = false)
    (hsrc : FS.lookup fs src = some sc) :
    ∃ fs₀, bake_one codec o fs src =
        bakeCore codec o fs₀ src (bake_final src o.output_fmt) (bake_tmp src o.output_fmt) ∧
      FS.lookup fs₀ src = some sc ∧
      (∀ q : FPath, q.name ≠ src.name → FS.lookup fs₀ q = FS.lookup fs q) := by
  unfold bake_one
  rw [hskip]
  simp only [Bool.false_eq_true, if_false]
  cases hb : o.backup_dir with
  | none => exact ⟨fs, rfl, hsrc, fun q _ => rfl⟩
  | some bd =>
    rw [hsrc]
    refine ⟨FS.write fs ⟨bd, src.name⟩ sc, rfl, FS.lookup_write_same fs _ src sc hsrc, ?_⟩
    intro q hq
    refine FS.lookup_write_ne fs ⟨bd, src.name⟩ q sc (fun hh => hq ?_)
    rw [hh]

/-! ## C1: the win decision -/

/-- C1: for every bake attempt that reaches the win decision (not skipped,
source statable, codec save succeeded — after which the temp file exists),
the attempt wins iff the temp size is strictly below the source size when
`output_fmt` is "keep", and always wins for any other `output_fmt`. -/
theorem bake_win_decision (codec : Codec) (o : BakeOpts) (fs : FS) (src : FPath)
    (sc out : Bytes)
    (hskip : (o.skip_if_marked && is_marked_d src) = false)
    (hsrc : FS.lookup fs src = some sc)
    (hc : codec sc (bake_kw src o) = CodecBehavior.saveOk out) :
    ∃ r, (bake_one codec o fs src).2 = Except.ok r ∧
      (o.output_fmt = keepChars → (r.won = true ↔ out.length < sc.length)) ∧
      (o.output_fmt ≠ keepChars → r.won = true) := by
  obtain ⟨fs₀, heq, hsrc₀, _⟩ := bake_one_to_core codec o fs src sc hskip hsrc
  rw [heq, bakeCore_of_saveOk codec o fs₀ src _ _ sc out hsrc₀ hc]
  have htmp := FS.lookup_write_self (FS.erase fs₀ (bake_tmp src o.output_fmt))
    (bake_tmp src o.output_fmt) out
  by_cases hk : o.output_fmt = keepChars
  · by_cases hlt : out.length < sc.length
    · rw [bakeAfterSave_won o _ src _ _ out sc.length htmp
        (by rw [if_pos hk]; exact decide_eq_true hlt)]
      exact ⟨_, rfl, fun _ => ⟨fun _ => hlt, fun _ => rfl⟩, fun hnk => absurd hk hnk⟩
    · rw [bakeAfterSave_kept o _ src _ _ out sc.length htmp
        (by rw [if_pos hk]; exact decide_eq_false hlt)]
      refine ⟨_, rfl, fun _ => ?_, fun hnk => absurd hk hnk⟩
      constructor
      · intro hff; cases hff
      · intro hlt'; exact absurd hlt' hlt
  · rw [bakeAfterSave_won o _ src _ _ out sc.length htmp (by rw [if_neg hk])]
    exact ⟨_, rfl, fun hkk => absurd hkk hk, fun _ => rfl⟩

/-- Witness for C1: a keep-format attempt on a 2-byte source whose
re-encode is 1 byte wins. -/
theorem bake_win_decision_witness :
    ((⟨keepChars, 85, false, none, true⟩ : BakeOpts).skip_if_marked
        && is_marked_d ⟨[], ['a', '.', 'j', 'p', 'g']⟩) = false ∧
    FS.lookup [(⟨[], ['a', '.', 'j', 'p', 'g']⟩, [0, 0])]
        ⟨[], ['a', '.', 'j', 'p', 'g']⟩ = some [0, 0] ∧
    (∃ r, (bake_one (fun _ _ => CodecBehavior.saveOk [0])
          ⟨keepChars, 85, false, none, true⟩
          [(⟨[], ['a', '.', 'j', 'p', 'g']⟩, [0, 0])]
          ⟨[], ['a', '.', 'j', 'p', 'g']⟩).2 = Except.ok r ∧
      ((⟨keepChars, 85, false, none, true⟩ : BakeOpts).output_fmt = keepChars →
        (r.won = true ↔ List.length [0] < List.length [0, 0])) ∧
      ((⟨keepChars, 85, false, none, true⟩ : BakeOpts).output_fmt ≠ keepChars →
        r.won = true)) :=
  ⟨by decide, by decide,
   bake_win_decision (fun _ _ => CodecBehavior.saveOk [0])
     ⟨keepChars, 85, false, none, true⟩
     [(⟨[], ['a', '.', 'j', 'p', 'g']⟩, [0, 0])]
     ⟨[], ['a', '.', 'j', 'p', 'g']⟩ [0, 0] [0]
     (by decide) (by decide) rfl⟩

/-! ## C3: effects of a winning attempt -/

/-- C3: for every winning bake attempt (well-formed candidate name
`st ++ "." ++ e` and target extension `"." ++ g`): the outcome is `Won`
carrying the source and temp sizes, the final marked path holds exactly
the temp output (any pre-existing file there was replaced), the temp path
no longer holds a file, and the original is deleted iff
`delete_original_on_win` (deleting via `unlink(missing_ok=True)`, which
never raises). -/
theorem bake_won_commit_spec (codec : Codec) (o : BakeOpts) (fs : FS) (src : FPath)
    (st e g : List Char) (sc out : Bytes)
    (hskip : (o.skip_if_marked && is_marked_d src) = false)
    (hn : src.name = st ++ '.' :: e) (hd : '.' ∉ e) (he : e ≠ []) (hs : st ≠ [])
    (hg : target_ext_of src o.output_fmt = '.' :: g) (hgd : '.' ∉ g) (hgn : g ≠ [])
    (hsrc : FS.lookup fs src = some sc)
    (hc : codec sc (bake_kw src o) = CodecBehavior.saveOk out)
    (hw : o.output_fmt ≠ keepChars ∨ out.length < sc.length) :
    (bake_one codec o fs src).2 =
      Except.ok ⟨true, Msg.wonMsg src.name (bake_final src o.output_fmt).name
                   sc.length out.length, sc.length, out.length⟩ ∧
    FS.lookup (bake_one codec o fs src).1 (bake_final src o.output_fmt) = some out ∧
    FS.lookup (bake_one codec o fs src).1 (bake_tmp src o.output_fmt) = none ∧
    FS.lookup (bake_one codec o fs src).1 src =
      (if o.delete_original_on_win then none else some sc) := by
  obtain ⟨-, -, -, -, dsf, dst, dft⟩ :=
    bake_paths_spec src o.output_fmt st e g hn hd he hs hg hgd hgn
  obtain ⟨fs₀, heq, hsrc₀, -⟩ := bake_one_to_core codec o fs src sc hskip hsrc
  rw [heq, bakeCore_of_saveOk codec o fs₀ src _ _ sc out hsrc₀ hc]
  have htmp := FS.lookup_write_self (FS.erase fs₀ (bake_tmp src o.output_fmt))
    (bake_tmp src o.output_fmt) out
  have hwon : (if o.output_fmt = keepChars then decide (out.length < sc.length)
      else true) = true := by
    rcases hw with h | h
    · rw [if_neg h]
    · by_cases hk : o.output_fmt = keepChars
      · rw [if_pos hk]; exact decide_eq_true h
      · rw [if_neg hk]
  rw [bakeAfterSave_won o _ src _ _ out sc.length htmp hwon]
  refine ⟨rfl, ?_, ?_, ?_⟩
  · by_cases hdel : o.delete_original_on_win
    · simp only [hdel, if_true]
      rw [FS.lookup_erase_ne _ src _ (Ne.symm dsf), FS.lookup_write_self]
    · simp only [hdel, Bool.false_eq_true, if_false]
      rw [FS.lookup_write_self]
  · by_cases hdel : o.delete_original_on_win
    · simp only [hdel, if_true]
      rw [FS.lookup_erase_ne _ src _ (Ne.symm dst),
        FS.lookup_write_ne _ _ _ _ (Ne.symm dft), FS.lookup_erase_self]
    · simp only [hdel, Bool.false_eq_true, if_false]
      rw [FS.lookup_write_ne _ _ _ _ (Ne.symm dft), FS.lookup_erase_self]
  · by_cases hdel : o.delete_original_on_win
    · simp only [hdel, if_true]
      rw [FS.lookup_erase_self]
    · simp only [hdel, Bool.false_eq_true, if_false]
      rw [FS.lookup_write_ne _ _ _ _ dsf, FS.lookup_erase_ne _ _ _ dst,
        FS.lookup_erase_ne _ _ _ dsf, FS.lookup_write_ne _ _ _ _ dst,
        FS.lookup_erase_ne _ _ _ dst]
      exact hsrc₀

/-- Witness for C3: `a.jpg` (2 bytes) re-encodes to 1 byte in keep mode
with `delete_original_on_win`; the marked file `a[D].jpg` holds the
output, the temp file `a[D].tmp.jpg` is gone, the original is deleted. -/
theorem bake_won_commit_spec_witness :
    FS.lookup [(⟨[], ['a', '.', 'j', 'p', 'g']⟩, [9, 9])]
        ⟨[], ['a', '.', 'j', 'p', 'g']⟩ = some [9, 9] ∧
    List.length [7] < List.length [9, 9] ∧
    ((bake_one (fun _ _ => CodecBehavior.saveOk [7])
        ⟨keepChars, 85, true, none, true⟩
        [(⟨[], ['a', '.', 'j', 'p', 'g']⟩, [9, 9])]
        ⟨[], ['a', '.', 'j', 'p', 'g']⟩).2 =
      Except.ok ⟨true,
        Msg.wonMsg ['a', '.', 'j', 'p', 'g'] ['a', '[', 'D', ']', '.', 'j', 'p', 'g'] 2 1,
        2, 1⟩ ∧
     FS.lookup (bake_one (fun _ _ => CodecBehavior.saveOk [7])
        ⟨keepChars, 85, true, none, true⟩
        [(⟨[], ['a', '.', 'j', 'p', 'g']⟩, [9, 9])]
        ⟨[], ['a', '.', 'j', 'p', 'g']⟩).1
        ⟨[], ['a', '[', 'D', ']', '.', 'j', 'p', 'g']⟩ = some [7] ∧
     FS.lookup (bake_one (fun _ _ => CodecBehavior.saveOk [7])
        ⟨keepChars, 85, true, none, true⟩
        [(⟨[], ['a', '.', 'j', 'p', 'g']⟩, [9, 9])]
        ⟨[], ['a', '.', 'j', 'p', 'g']⟩).1
        ⟨[], ['a', '[', 'D', ']', '.', 't', 'm', 'p', '.', 'j', 'p', 'g']⟩ = none ∧
     FS.lookup (bake_one (fun _ _ => CodecBehavior.saveOk [7])
        ⟨keepChars, 85, true, none, true⟩
        [(⟨[], ['a', '.', 'j', 'p', 'g']⟩, [9, 9])]
        ⟨[], ['a', '.', 'j', 'p', 'g']⟩).1
        ⟨[], ['a', '.', 'j', 'p', 'g']⟩ = none) :=
  ⟨by decide, by decide,
   bake_won_commit_spec (fun _ _ => CodecBehavior.saveOk [7])
     ⟨keepChars, 85, true, none, true⟩
     [(⟨[], ['a', '.', 'j', 'p', 'g']⟩, [9, 9])]
     ⟨[], ['a', '.', 'j', 'p', 'g']⟩
     ['a'] ['j', 'p', 'g'] ['j', 'p', 'g'] [9, 9] [7]
     (by decide) (by decide) (by decide) (by decide) (by decide)
     (by decide) (by decide) (by decide) (by decide) rfl
     (Or.inr (by decide))⟩

/-! ## C4: effects of a kept-original attempt (keep format, no win) -/

/-- C4: for every keep-format bake attempt whose re-encode is not strictly
smaller: the outcome is `KeptOriginal` with both recorded sizes equal to
the source size, the temp file is deleted, the original file is unchanged,
and the final marked path is exactly as it was before the attempt (no
marked file created). -/
theorem bake_kept_frame_spec (codec : Codec) (o : BakeOpts) (fs : FS) (src : FPath)
    (st e g : List Char) (sc out : Bytes)
    (hskip : (o.skip_if_marked && is_marked_d src) = false)
    (hn : src.name = st ++ '.' :: e) (hd : '.' ∉ e) (he : e ≠ []) (hs : st ≠ [])
    (hg : target_ext_of src o.output_fmt = '.' :: g) (hgd : '.' ∉ g) (hgn : g ≠ [])
    (hfmt : o.output_fmt = keepChars)
    (hsrc : FS.lookup fs src = some sc)
    (hc : codec sc (bake_kw src o) = CodecBehavior.saveOk out)
    (hnw : ¬ out.length < sc.length) :
    (bake_one codec o fs src).2 =
      Except.ok ⟨false, Msg.kept src.name, sc.length, sc.length⟩ ∧
    FS.lookup (bake_one codec o fs src).1 (bake_tmp src o.output_fmt) = none ∧
    FS.lookup (bake_one codec o fs src).1 src = some sc ∧
    FS.lookup (bake_one codec o fs src).1 (bake_final src o.output_fmt) =
      FS.lookup fs (bake_final src o.output_fmt) := by
  obtain ⟨-, -, hnf, hnt, dsf, dst, dft⟩ :=
    bake_paths_spec src o.output_fmt st e g hn hd he hs hg hgd hgn
  obtain ⟨fs₀, heq, hsrc₀, hframe⟩ := bake_one_to_core codec o fs src sc hskip hsrc
  rw [heq, bakeCore_of_saveOk codec o fs₀ src _ _ sc out hsrc₀ hc]
  have htmp := FS.lookup_write_self (FS.erase fs₀ (bake_tmp src o.output_fmt))
    (bake_tmp src o.output_fmt) out
  rw [bakeAfterSave_kept o _ src _ _ out sc.length htmp
    (by rw [if_pos hfmt]; exact decide_eq_false hnw)]
  refine ⟨rfl, ?_, ?_, ?_⟩
  · rw [FS.lookup_erase_self]
  · rw [FS.lookup_erase_ne _ _ _ dst, FS.lookup_write_ne _ _ _ _ dst,
      FS.lookup_erase_ne _ _ _ dst]
    exact hsrc₀
  · rw [FS.lookup_erase_ne _ _ _ dft, FS.lookup_write_ne _ _ _ _ dft,
      FS.lookup_erase_ne _ _ _ dft]
    exact hframe _ (fun hh => hnf hh.symm)

/-- Witness for C4: `a.jpg` (1 byte) re-encodes to 1 byte (a tie) in keep
mode; the original is untouched, no marked file appears, the temp file is
gone. -/
theorem bake_kept_frame_spec_witness :
    FS.lookup [(⟨[], ['a', '.', 'j', 'p', 'g']⟩, [5])]
        ⟨[], ['a', '.', 'j', 'p', 'g']⟩ = some [5] ∧
    ¬ List.length [6] < List.length [5] ∧
    ((bake_one (fun _ _ => CodecBehavior.saveOk [6])
        ⟨keepChars, 85, true, none, true⟩
        [(⟨[], ['a', '.', 'j', 'p', 'g']⟩, [5])]
        ⟨[], ['a', '.', 'j', 'p', 'g']⟩).2 =
      Except.ok ⟨false, Msg.kept ['a', '.', 'j', 'p', 'g'], 1, 1⟩ ∧
     FS.lookup (bake_one (fun _ _ => CodecBehavior.saveOk [6])
        ⟨keepChars, 85, true, none, true⟩
        [(⟨[], ['a', '.', 'j', 'p', 'g']⟩, [5])]
        ⟨[], ['a', '.', 'j', 'p', 'g']⟩).1
        ⟨[], ['a', '[', 'D', ']', '.', 't', 'm', 'p', '.', 'j', 'p', 'g']⟩ = none ∧
     FS.lookup (bake_one (fun _ _ => CodecBehavior.saveOk [6])
        ⟨keepChars, 85, true, none, true⟩
        [(⟨[], ['a', '.', 'j', 'p', 'g']⟩, [5])]
        ⟨[], ['a', '.', 'j', 'p', 'g']⟩).1
        ⟨[], ['a', '.', 'j', 'p', 'g']⟩ = some [5] ∧
     FS.lookup (bake_one (fun _ _ => CodecBehavior.saveOk [6])
        ⟨keepChars, 85, true, none, true⟩
        [(⟨[], ['a', '.', 'j', 'p', 'g']⟩, [5])]
        ⟨[], ['a', '.', 'j', 'p', 'g']⟩).1
        ⟨[], ['a', '[', 'D', ']', '.', 'j', 'p', 'g']⟩ =
      FS.lookup [(⟨[], ['a', '.', 'j', 'p', 'g']⟩, [5])]
        ⟨[], ['a', '[', 'D', ']', '.', 'j', 'p', 'g']⟩) :=
  ⟨by decide, by decide,
   bake_kept_frame_spec (fun _ _ => CodecBehavior.saveOk [6])
     ⟨keepChars, 85, true, none, true⟩
     [(⟨[], ['a', '.', 'j', 'p', 'g']⟩, [5])]
     ⟨[], ['a', '.', 'j', 'p', 'g']⟩
     ['a'] ['j', 'p', 'g'] ['j', 'p', 'g'] [5] [6]
     (by decide) (by decide) (by decide) (by decide) (by decide)
     (by decide) (by decide) (by decide) (by decide) (by decide) rfl
     (by decide)⟩

/-! ## C2: temp-file cleanup -/

/-- C2 (amended): after a `KeptOriginal` outcome no file remains at the
candidate's temp path.  (On `Failed` outcomes the source has no cleanup:
see the counterexample, where a codec open error leaves a stale file at
the temp path.) -/
theorem bake_kept_removes_tmp (codec : Codec) (o : BakeOpts) (fs : FS) (src : FPath)
    (sc out : Bytes)
    (hskip : (o.skip_if_marked && is_marked_d src) = false)
    (hsrc : FS.lookup fs src = some sc)
    (hc : codec sc (bake_kw src o) = CodecBehavior.saveOk out)
    (hfmt : o.output_fmt = keepChars)
    (hnw : ¬ out.length < sc.length) :
    (bake_one codec o fs src).2 =
      Except.ok ⟨false, Msg.kept src.name, sc.length, sc.length⟩ ∧
    FS.lookup (bake_one codec o fs src).1 (bake_tmp src o.output_fmt) = none := by
  obtain ⟨fs₀, heq, hsrc₀, -⟩ := bake_one_to_core codec o fs src sc hskip hsrc
  rw [heq, bakeCore_of_saveOk codec o fs₀ src _ _ sc out hsrc₀ hc]
  rw [bakeAfterSave_kept o _ src _ _ out sc.length (FS.lookup_write_self _ _ _)
    (by rw [if_pos hfmt]; exact decide_eq_false hnw)]
  exact ⟨rfl, FS.lookup_erase_self _ _⟩

/-- Witness for the amended C2: a keep-format tie leaves no file at the
temp path. -/
theorem bake_kept_removes_tmp_witness :
    FS.lookup [(⟨[], ['a', '.', 'j', 'p', 'g']⟩, [5])]
        ⟨[], ['a', '.', 'j', 'p', 'g']⟩ = some [5] ∧
    ¬ List.length [8] < List.length [5] ∧
    ((bake_one (fun _ _ => CodecBehavior.saveOk [8])
        ⟨keepChars, 85, false, none, true⟩
        [(⟨[], ['a', '.', 'j', 'p', 'g']⟩, [5])]
        ⟨[], ['a', '.', 'j', 'p', 'g']⟩).2 =
      Except.ok ⟨false, Msg.kept ['a', '.', 'j', 'p', 'g'], 1, 1⟩ ∧
     FS.lookup (bake_one (fun _ _ => CodecBehavior.saveOk [8])
        ⟨keepChars, 85, false, none, true⟩
        [(⟨[], ['a', '.', 'j', 'p', 'g']⟩, [5])]
        ⟨[], ['a', '.', 'j', 'p', 'g']⟩).1
        (bake_tmp ⟨[], ['a', '.', 'j', 'p', 'g']⟩ keepChars) = none) :=
  ⟨by decide, by decide,
   bake_kept_removes_tmp (fun _ _ => CodecBehavior.saveOk [8])
     ⟨keepChars, 85, false, none, true⟩
     [(⟨[], ['a', '.', 'j', 'p', 'g']⟩, [5])]
     ⟨[], ['a', '.', 'j', 'p', 'g']⟩ [5] [8]
     (by decide) (by decide) rfl rfl (by decide)⟩

/-- Counterexample to C2 as stated: a bake attempt on `a.jpg` fails with a
codec open error while a stale file sits at the candidate's temp path
`a[D].tmp.jpg`; the attempt ends `Failed` and the file at the temp path is
still there (`bake_one` has no cleanup on its exception paths; `Image.open`
raises before `save_image_to_tmp`'s stale-temp unlink runs). -/
theorem bake_failed_leaves_tmp_cex :
    bake_tmp ⟨[], ['a', '.', 'j', 'p', 'g']⟩ keepChars
      = ⟨[], ['a', '[', 'D', ']', '.', 't', 'm', 'p', '.', 'j', 'p', 'g']⟩ ∧
    (bake_one (fun _ _ => CodecBehavior.openErr)
        ⟨keepChars, 85, false, none, true⟩
        [(⟨[], ['a', '.', 'j', 'p', 'g']⟩, [0]),
         (⟨[], ['a', '[', 'D', ']', '.', 't', 'm', 'p', '.', 'j', 'p', 'g']⟩, [1])]
        ⟨[], ['a', '.', 'j', 'p', 'g']⟩).2 = Except.error BakeErr.codecOpen ∧
    FS.lookup (bake_one (fun _ _ => CodecBehavior.openErr)
        ⟨keepChars, 85, false, none, true⟩
        [(⟨[], ['a', '.', 'j', 'p', 'g']⟩, [0]),
         (⟨[], ['a', '[', 'D', ']', '.', 't', 'm', 'p', '.', 'j', 'p', 'g']⟩, [1])]
        ⟨[], ['a', '.', 'j', 'p', 'g']⟩).1
      ⟨[], ['a', '[', 'D', ']', '.', 't', 'm', 'p', '.', 'j', 'p', 'g']⟩ = some [1] := by
  refine ⟨by decide, rfl, rfl⟩

/-! ## C6: the skip outcome -/

/-- Every successful non-skip `bake_one` result is either a won-shaped or
a kept-shaped tuple; in particular its message is never a skip message. -/
theorem bake_one_ok_msg (codec : Codec) (o : BakeOpts) (fs : FS) (src : FPath)
    (r : BakeRet)
    (hskip : (o.skip_if_marked && is_marked_d src) = false)
    (hok : (bake_one codec o fs src).2 = Except.ok r) :
    (∃ fn s t, r = ⟨true, Msg.wonMsg src.name fn s t, s, t⟩) ∨
    (∃ s, r = ⟨false, Msg.kept src.name, s, s⟩) := by
  unfold bake_one at hok
  rw [hskip] at hok
  simp only [Bool.false_eq_true, if_false] at hok
  have core : ∀ fs₀ : FS,
      (bakeCore codec o fs₀ src (bake_final src o.output_fmt)
        (bake_tmp src o.output_fmt)).2 = Except.ok r →
      (∃ fn s t, r = ⟨true, Msg.wonMsg src.name fn s t, s, t⟩) ∨
      (∃ s, r = ⟨false, Msg.kept src.name, s, s⟩) := by
    intro fs₀ hco
    cases hl : FS.lookup fs₀ src with
    | none =>
      have hv : bakeCore codec o fs₀ src (bake_final src o.output_fmt)
          (bake_tmp src o.output_fmt) = (fs₀, Except.error BakeErr.statFail) := by
        unfold bakeCore; rw [hl]
      rw [hv] at hco
      cases hco
    | some sc =>
      cases hcodec : codec sc (save_kwargs
          (strLower (FPath.suffix (bake_tmp src o.output_fmt))) o.quality) with
      | openErr =>
        have hv : bakeCore codec o fs₀ src (bake_final src o.output_fmt)
            (bake_tmp src o.output_fmt) = (fs₀, Except.error BakeErr.codecOpen) := by
          unfold bakeCore; rw [hl]; simp only [hcodec]
        rw [hv] at hco
        cases hco
      | saveErr leftover =>
        have hv : (bakeCore codec o fs₀ src (bake_final src o.output_fmt)
            (bake_tmp src o.output_fmt)).2 = Except.error BakeErr.codecSave := by
          unfold bakeCore; rw [hl]; simp only [hcodec]
        rw [hv] at hco
        cases hco
      | saveOk out =>
        rw [bakeCore_of_saveOk codec o fs₀ src _ _ sc out hl hcodec] at hco
        by_cases hwon : (if o.output_fmt = keepChars
            then decide (out.length < sc.length) else true) = true
        · rw [bakeAfterSave_won o _ src _ _ out sc.length
            (FS.lookup_write_self _ _ _) hwon] at hco
          injection hco with hco'
          exact Or.inl ⟨_, _, _, hco'.symm⟩
        · rw [bakeAfterSave_kept o _ src _ _ out sc.length
            (FS.lookup_write_self _ _ _) (Bool.eq_false_iff.mpr hwon)] at hco
          injection hco with hco'
          exact Or.inr ⟨_, hco'.symm⟩
  cases hbd : o.backup_dir with
  | none =>
    rw [hbd] at hok
    exact core fs hok
  | some bd =>
    rw [hbd] at hok
    cases hl : FS.lookup fs src with
    | none => rw [hl] at hok; cases hok
    | some c =>
      rw [hl] at hok
      exact core _ hok

/-- C6: when `skip_if_marked` is set and the candidate's stem already
carries the tag, `bake_one` returns the skip outcome immediately — no
exception, both sizes zero, the filesystem unchanged for every input
filesystem — and this outcome is distinguishable from `Won`,
`KeptOriginal` and `Failed`: a skip-shaped message only ever comes out of
the skip branch (every other successful return is won- or kept-shaped,
and `Failed` is an exception, not a return value). -/
theorem bake_skip_spec (codec : Codec) (o : BakeOpts) (fs : FS) (src : FPath)
    (h1 : o.skip_if_marked = true) (h2 : is_marked_d src = true) :
    bake_one codec o fs src = (fs, Except.ok ⟨false, Msg.skip src.name, 0, 0⟩) ∧
    (∀ (codec' : Codec) (o' : BakeOpts) (fs' : FS) (s' : FPath) (r : BakeRet)
        (n : List Char),
      (bake_one codec' o' fs' s').2 = Except.ok r → r.msg = Msg.skip n →
      r = ⟨false, Msg.skip s'.name, 0, 0⟩ ∧ (bake_one codec' o' fs' s').1 = fs' ∧
        o'.skip_if_marked = true ∧ is_marked_d s' = true) := by
  constructor
  · unfold bake_one
    rw [if_pos (show (o.skip_if_marked && is_marked_d src) = true by rw [h1, h2]; rfl)]
  · intro codec' o' fs' s' r n hok hmsg
    by_cases hsk : (o'.skip_if_marked && is_marked_d s') = true
    · have hb : bake_one codec' o' fs' s' =
          (fs', Except.ok ⟨false, Msg.skip s'.name, 0, 0⟩) := by
        unfold bake_one
        rw [if_pos hsk]
      rw [hb] at hok
      injection hok with hok'
      have hsk' := hsk
      rw [Bool.and_eq_true] at hsk'
      obtain ⟨hA, hB⟩ := hsk'
      exact ⟨hok'.symm, by rw [hb], hA, hB⟩
    · exfalso
      rcases bake_one_ok_msg codec' o' fs' s' r (Bool.eq_false_iff.mpr hsk) hok with
        ⟨fn, sz, t, hr⟩ | ⟨sz, hr⟩
      · rw [hr] at hmsg
        cases hmsg
      · rw [hr] at hmsg
        cases hmsg

/-- Witness for C6: `a[D]b.jpg`-style marked file `x[D].jpg` is skipped
with zero sizes and untouched filesystem. -/
theorem bake_skip_spec_witness :
    (⟨keepChars, 85, false, none, true⟩ : BakeOpts).skip_if_marked = true ∧
    is_marked_d ⟨[], ['x', '[', 'D', ']', '.', 'j', 'p', 'g']⟩ = true ∧
    bake_one (fun _ _ => CodecBehavior.openErr) ⟨keepChars, 85, false, none, true⟩
        [(⟨[], ['x', '[', 'D', ']', '.', 'j', 'p', 'g']⟩, [3])]
        ⟨[], ['x', '[', 'D', ']', '.', 'j', 'p', 'g']⟩ =
      ([(⟨[], ['x', '[', 'D', ']', '.', 'j', 'p', 'g']⟩, [3])],
       Except.ok ⟨false, Msg.skip ['x', '[', 'D', ']', '.', 'j', 'p', 'g'], 0, 0⟩) :=
  ⟨rfl, by decide,
   (bake_skip_spec (fun _ _ => CodecBehavior.openErr) ⟨keepChars, 85, false, none, true⟩
     [(⟨[], ['x', '[', 'D', ']', '.', 'j', 'p', 'g']⟩, [3])]
     ⟨[], ['x', '[', 'D', ']', '.', 'j', 'p', 'g']⟩ rfl (by decide)).1⟩

/-! ## C10: the completion-tag test is a substring check on the stem -/

/-- C10: a candidate whose stem contains `[D]` anywhere is treated as
marked: with `skip_if_marked` set, `bake_one` returns the skip outcome
with the filesystem untouched, and the multi-root driver's candidate
filter excludes the file from every candidate list. -/
theorem marked_substring_skip_spec (codec : Codec) (o : BakeOpts) (fs : FS) (p : FPath)
    (hskip : o.skip_if_marked = true)
    (hm : decide (dTag <:+: pyStem p.name) = true) :
    is_marked_d p = true ∧
    bake_one codec o fs p = (fs, Except.ok ⟨false, Msg.skip p.name, 0, 0⟩) ∧
    ∀ l : List FPath, p ∉ all_mode_files true l := by
  have hmark : is_marked_d p = true := hm
  refine ⟨hmark, ?_, ?_⟩
  · unfold bake_one
    rw [if_pos (show (o.skip_if_marked && is_marked_d p) = true by rw [hskip, hmark]; rfl)]
  · intro l hmem
    have hmem' : p ∈ (l.filter (fun q => extOk q)).filter (fun q => !(is_marked_d q)) :=
      hmem
    have h2 := (List.mem_filter.mp hmem').2
    rw [hmark] at h2
    cases h2

/-- Witness for C10: `a[D]b.jpg` — the tag sits strictly inside the stem,
not appended at its end — is skipped and excluded from the all-mode
candidate list. -/
theorem marked_substring_skip_spec_witness :
    decide (dTag <:+: pyStem ['a', '[', 'D', ']', 'b', '.', 'j', 'p', 'g']) = true ∧
    bake_one (fun _ _ => CodecBehavior.openErr) ⟨keepChars, 85, false, none, true⟩
        [(⟨[], ['a', '[', 'D', ']', 'b', '.', 'j', 'p', 'g']⟩, [2])]
        ⟨[], ['a', '[', 'D', ']', 'b', '.', 'j', 'p', 'g']⟩ =
      ([(⟨[], ['a', '[', 'D', ']', 'b', '.', 'j', 'p', 'g']⟩, [2])],
       Except.ok ⟨false, Msg.skip ['a', '[', 'D', ']', 'b', '.', 'j', 'p', 'g'], 0, 0⟩) ∧
    (⟨[], ['a', '[', 'D', ']', 'b', '.', 'j', 'p', 'g']⟩ : FPath) ∉
      all_mode_files true [⟨[], ['a', '[', 'D', ']', 'b', '.', 'j', 'p', 'g']⟩] :=
  ⟨by decide,
   (marked_substring_skip_spec (fun _ _ => CodecBehavior.openErr)
     ⟨keepChars, 85, false, none, true⟩
     [(⟨[], ['a', '[', 'D', ']', 'b', '.', 'j', 'p', 'g']⟩, [2])]
     ⟨[], ['a', '[', 'D', ']', 'b', '.', 'j', 'p', 'g']⟩ rfl (by decide)).2.1,
   (marked_substring_skip_spec (fun _ _ => CodecBehavior.openErr)
     ⟨keepChars, 85, false, none, true⟩
     [(⟨[], ['a', '[', 'D', ']', 'b', '.', 'j', 'p', 'g']⟩, [2])]
     ⟨[], ['a', '[', 'D', ']', 'b', '.', 'j', 'p', 'g']⟩ rfl (by decide)).2.2
     [⟨[], ['a', '[', 'D', ']', 'b', '.', 'j', 'p', 'g']⟩]⟩

/-! ## C7: the target extension -/

/-- Counterexample to C7 as stated: for the candidate `photo.JPG` in keep
mode the target extension is the lower-cased `.jpg`, not the candidate's
own extension `.JPG`: the final marked path is `photo[D].jpg` and its
extension differs from the candidate's. -/
theorem target_ext_lowercase_cex :
    FPath.suffix ⟨[], ['p', 'h', 'o', 't', 'o', '.', 'J', 'P', 'G']⟩
      = ['.', 'J', 'P', 'G'] ∧
    target_ext_of ⟨[], ['p', 'h', 'o', 't', 'o', '.', 'J', 'P', 'G']⟩ keepChars
      = ['.', 'j', 'p', 'g'] ∧
    (bake_final ⟨[], ['p', 'h', 'o', 't', 'o', '.', 'J', 'P', 'G']⟩ keepChars).name
      = ['p', 'h', 'o', 't', 'o', '[', 'D', ']', '.', 'j', 'p', 'g'] ∧
    FPath.suffix (bake_final ⟨[], ['p', 'h', 'o', 't', 'o', '.', 'J', 'P', 'G']⟩ keepChars)
      ≠ FPath.suffix ⟨[], ['p', 'h', 'o', 't', 'o', '.', 'J', 'P', 'G']⟩ := by
  decide

/-- C7 (amended): in keep mode the target extension used for the final
marked path is the candidate's extension lower-cased (so `.JPG` becomes
`.jpg`), and for any other format it is `"." ++ format`; in both cases the
final marked path's extension is that target extension. -/
theorem target_ext_spec (src : FPath) (st e output_fmt : List Char)
    (hn : src.name = st ++ '.' :: e) (hd : '.' ∉ e) (he : e ≠ []) (hs : st ≠ [])
    (hl : '.' ∉ strLower e) :
    (target_ext_of src keepChars = '.' :: strLower e ∧
     FPath.suffix (bake_final src keepChars) = '.' :: strLower e) ∧
    (output_fmt ≠ keepChars → '.' ∉ output_fmt → output_fmt ≠ [] →
      target_ext_of src output_fmt = '.' :: output_fmt ∧
      FPath.suffix (bake_final src output_fmt) = '.' :: output_fmt) := by
  have hgn : strLower e ≠ [] := by
    intro hh
    exact he (List.map_eq_nil_iff.mp hh)
  have htk : target_ext_of src keepChars = '.' :: strLower e := by
    unfold target_ext_of
    rw [if_pos rfl]
    unfold FPath.suffix
    rw [hn, pySuffix_of_wf st e hd he hs]
    show ('.' :: e).map Char.toLower = '.' :: strLower e
    rw [List.map_cons]
    rfl
  constructor
  · obtain ⟨hf, -, -, -, -, -, -⟩ :=
      bake_paths_spec src keepChars st e (strLower e) hn hd he hs htk hl hgn
    refine ⟨htk, ?_⟩
    rw [hf]
    unfold FPath.suffix
    simp only
    exact pySuffix_of_wf (st ++ dTag) (strLower e) hl hgn (by simp [dTag])
  · intro hnk hdf hne
    have htc : target_ext_of src output_fmt = '.' :: output_fmt := by
      unfold target_ext_of
      rw [if_neg hnk]
    obtain ⟨hf, -, -, -, -, -, -⟩ :=
      bake_paths_spec src output_fmt st e output_fmt hn hd he hs htc hdf hne
    refine ⟨htc, ?_⟩
    rw [hf]
    unfold FPath.suffix
    simp only
    exact pySuffix_of_wf (st ++ dTag) output_fmt hdf hne (by simp [dTag])

/-- Witness for the amended C7: `photo.JPG` in keep mode gets extension
`.jpg`; converting to `webp` gets `.webp`. -/
theorem target_ext_spec_witness :
    ((⟨[], ['p', 'h', 'o', 't', 'o', '.', 'J', 'P', 'G']⟩ : FPath).name
      = ['p', 'h', 'o', 't', 'o'] ++ '.' :: ['J', 'P', 'G']) ∧
    ((target_ext_of ⟨[], ['p', 'h', 'o', 't', 'o', '.', 'J', 'P', 'G']⟩ keepChars
        = '.' :: strLower ['J', 'P', 'G'] ∧
      FPath.suffix (bake_final ⟨[], ['p', 'h', 'o', 't', 'o', '.', 'J', 'P', 'G']⟩ keepChars)
        = '.' :: strLower ['J', 'P', 'G']) ∧
     (['w', 'e', 'b', 'p'] ≠ keepChars → '.' ∉ ['w', 'e', 'b', 'p'] →
       (['w', 'e', 'b', 'p'] : List Char) ≠ [] →
       target_ext_of ⟨[], ['p', 'h', 'o', 't', 'o', '.', 'J', 'P', 'G']⟩ ['w', 'e', 'b', 'p']
         = '.' :: ['w', 'e', 'b', 'p'] ∧
       FPath.suffix (bake_final ⟨[], ['p', 'h', 'o', 't', 'o', '.', 'J', 'P', 'G']⟩
         ['w', 'e', 'b', 'p']) = '.' :: ['w', 'e', 'b', 'p'])) :=
  ⟨by decide,
   target_ext_spec ⟨[], ['p', 'h', 'o', 't', 'o', '.', 'J', 'P', 'G']⟩
     ['p', 'h', 'o', 't', 'o'] ['J', 'P', 'G'] ['w', 'e', 'b', 'p']
     (by decide) (by decide) (by decide) (by decide) (by decide)⟩

/-! ## C8: the filename contract -/

/-- C8: for a well-formed candidate name, the marked path keeps the
directory, appends the literal `[D]` to the candidate's stem before the
target extension, and the temp path inserts `.tmp` between the marked
path's stem and its extension — so the temp path still ends in the real
target extension. -/
theorem mark_tmp_name_contract (p : FPath) (st e g : List Char)
    (hn : p.name = st ++ '.' :: e) (hd : '.' ∉ e) (he : e ≠ []) (hs : st ≠ [])
    (hgd : '.' ∉ g) (hgn : g ≠ []) :
    mark_name p ('.' :: g) = ⟨p.dir, (FPath.stem p ++ dTag) ++ '.' :: g⟩ ∧
    FPath.stem (mark_name p ('.' :: g)) = FPath.stem p ++ dTag ∧
    FPath.suffix (mark_name p ('.' :: g)) = '.' :: g ∧
    safe_tmp_name (mark_name p ('.' :: g)) =
      ⟨p.dir, ((FPath.stem p ++ dTag) ++ tmpTag) ++ '.' :: g⟩ ∧
    FPath.suffix (safe_tmp_name (mark_name p ('.' :: g))) = '.' :: g := by
  have hstem : FPath.stem p = st := by
    unfold FPath.stem
    rw [hn]
    exact pyStem_of_wf st e hd he hs
  have hsd : st ++ dTag ≠ [] := by simp [dTag]
  have hm : mark_name p ('.' :: g) = ⟨p.dir, (st ++ dTag) ++ '.' :: g⟩ := by
    unfold mark_name
    rw [hn, pyStem_of_wf st e hd he hs]
  have hms : FPath.stem (mark_name p ('.' :: g)) = st ++ dTag := by
    rw [hm]
    unfold FPath.stem
    simp only
    exact pyStem_of_wf (st ++ dTag) g hgd hgn hsd
  have hmx : FPath.suffix (mark_name p ('.' :: g)) = '.' :: g := by
    rw [hm]
    unfold FPath.suffix
    simp only
    exact pySuffix_of_wf (st ++ dTag) g hgd hgn hsd
  have htn : safe_tmp_name (mark_name p ('.' :: g)) =
      ⟨p.dir, ((st ++ dTag) ++ tmpTag) ++ '.' :: g⟩ := by
    unfold safe_tmp_name
    rw [hm]
    simp only
    rw [pyStem_of_wf (st ++ dTag) g hgd hgn hsd, pySuffix_of_wf (st ++ dTag) g hgd hgn hsd]
  have hts : FPath.suffix (safe_tmp_name (mark_name p ('.' :: g))) = '.' :: g := by
    rw [htn]
    unfold FPath.suffix
    simp only
    exact pySuffix_of_wf ((st ++ dTag) ++ tmpTag) g hgd hgn (by simp [dTag, tmpTag])
  rw [hstem]
  exact ⟨hm, hms, hmx, htn, hts⟩

/-- Witness for C8: `photo.jpg` marks to `photo[D].jpg` and its temp path
is `photo[D].tmp.jpg`, whose extension is still `.jpg`. -/
theorem mark_tmp_name_contract_witness :
    ((⟨[], ['p', 'h', 'o', 't', 'o', '.', 'j', 'p', 'g']⟩ : FPath).name
      = ['p', 'h', 'o', 't', 'o'] ++ '.' :: ['j', 'p', 'g']) ∧
    (mark_name ⟨[], ['p', 'h', 'o', 't', 'o', '.', 'j', 'p', 'g']⟩ ('.' :: ['j', 'p', 'g'])
      = ⟨[], (FPath.stem ⟨[], ['p', 'h', 'o', 't', 'o', '.', 'j', 'p', 'g']⟩ ++ dTag)
          ++ '.' :: ['j', 'p', 'g']⟩ ∧
     FPath.stem (mark_name ⟨[], ['p', 'h', 'o', 't', 'o', '.', 'j', 'p', 'g']⟩
        ('.' :: ['j', 'p', 'g']))
      = FPath.stem ⟨[], ['p', 'h', 'o', 't', 'o', '.', 'j', 'p', 'g']⟩ ++ dTag ∧
     FPath.suffix (mark_name ⟨[], ['p', 'h', 'o', 't', 'o', '.', 'j', 'p', 'g']⟩
        ('.' :: ['j', 'p', 'g'])) = '.' :: ['j', 'p', 'g'] ∧
     safe_tmp_name (mark_name ⟨[], ['p', 'h', 'o', 't', 'o', '.', 'j', 'p', 'g']⟩
        ('.' :: ['j', 'p', 'g']))
      = ⟨[], ((FPath.stem ⟨[], ['p', 'h', 'o', 't', 'o', '.', 'j', 'p', 'g']⟩ ++ dTag)
          ++ tmpTag) ++ '.' :: ['j', 'p', 'g']⟩ ∧
     FPath.suffix (safe_tmp_name (mark_name ⟨[], ['p', 'h', 'o', 't', 'o', '.', 'j', 'p', 'g']⟩
        ('.' :: ['j', 'p', 'g']))) = '.' :: ['j', 'p', 'g']) :=
  ⟨by decide,
   mark_tmp_name_contract ⟨[], ['p', 'h', 'o', 't', 'o', '.', 'j', 'p', 'g']⟩
     ['p', 'h', 'o', 't', 'o'] ['j', 'p', 'g'] ['j', 'p', 'g']
     (by decide) (by decide) (by decide) (by decide) (by decide) (by decide)⟩

/-! ## C9: the two batch drivers -/

/-- The two duplicated per-file loops (lines 178-196 and 267-285) compute
the same function of the candidate list. -/
theorem folder_loop_eq_all_loop (codec : Codec) (o : BakeOpts) :
    ∀ (l : List FPath) (fs : FS),
      run_folder_loop codec o fs l = run_all_loop codec o fs l := by
  intro l
  induction l with
  | nil => intro fs; rfl
  | cons s rest ih =>
    intro fs
    unfold run_folder_loop run_all_loop
    rcases hb : bake_one codec o fs s with ⟨fs₁, res⟩
    cases res with
    | ok r => simp only [ih]
    | error err => simp only [ih]

/-- On candidate lists of recognized, unmarked files the all-mode
pre-filter is the identity. -/
theorem all_mode_files_id (skip : Bool) (files : List FPath)
    (h : ∀ p ∈ files, extOk p = true ∧ is_marked_d p = false) :
    all_mode_files skip files = files := by
  unfold all_mode_files
  have h1 : files.filter (fun p => extOk p) = files :=
    List.filter_eq_self.mpr (fun p hp => (h p hp).1)
  rw [h1]
  cases skip with
  | false => rfl
  | true =>
    rw [if_pos rfl]
    exact List.filter_eq_self.mpr (fun p hp => by rw [(h p hp).2]; rfl)

/-- Counterexample to C9 as stated: on the candidate list holding only the
marked file `a[D].jpg` with skip-marked enabled, the single-folder loop
tallies it as a Kept (the file reaches `bake_one`, which skips it and
returns `won = false`), while the all-mode driver pre-filters it away and
tallies nothing — the two drivers' tallies differ. -/
theorem drivers_tally_cex :
    run_folder_loop (fun _ _ => CodecBehavior.openErr) ⟨keepChars, 85, false, none, true⟩
        [(⟨[], ['a', '[', 'D', ']', '.', 'j', 'p', 'g']⟩, [1])]
        [⟨[], ['a', '[', 'D', ']', '.', 'j', 'p', 'g']⟩]
      = ⟨[(⟨[], ['a', '[', 'D', ']', '.', 'j', 'p', 'g']⟩, [1])], 0, 1, 0⟩ ∧
    run_all_loop (fun _ _ => CodecBehavior.openErr) ⟨keepChars, 85, false, none, true⟩
        [(⟨[], ['a', '[', 'D', ']', '.', 'j', 'p', 'g']⟩, [1])]
        (all_mode_files
          (⟨keepChars, 85, false, none, true⟩ : BakeOpts).skip_if_marked
          [⟨[], ['a', '[', 'D', ']', '.', 'j', 'p', 'g']⟩])
      = ⟨[(⟨[], ['a', '[', 'D', ']', '.', 'j', 'p', 'g']⟩, [1])], 0, 0, 0⟩ ∧
    run_folder_loop (fun _ _ => CodecBehavior.openErr) ⟨keepChars, 85, false, none, true⟩
        [(⟨[], ['a', '[', 'D', ']', '.', 'j', 'p', 'g']⟩, [1])]
        [⟨[], ['a', '[', 'D', ']', '.', 'j', 'p', 'g']⟩]
      ≠ run_all_loop (fun _ _ => CodecBehavior.openErr) ⟨keepChars, 85, false, none, true⟩
        [(⟨[], ['a', '[', 'D', ']', '.', 'j', 'p', 'g']⟩, [1])]
        (all_mode_files
          (⟨keepChars, 85, false, none, true⟩ : BakeOpts).skip_if_marked
          [⟨[], ['a', '[', 'D', ']', '.', 'j', 'p', 'g']⟩]) := by
  decide

/-- C9 (amended): the two drivers perform identical per-file processing on
candidate lists whose members all carry recognized extensions and are
unmarked — the loops, filesystems and Won / Kept / Error tallies agree; a
marked candidate, however, is tallied as Kept by the single-folder driver
and excluded by the all-mode pre-filter (see the counterexample). -/
theorem drivers_tally_eq (codec : Codec) (o : BakeOpts) (fs : FS) (files : List FPath)
    (h : ∀ p ∈ files, extOk p = true ∧ is_marked_d p = false) :
    run_folder_loop codec o fs files =
      run_all_loop codec o fs (all_mode_files o.skip_if_marked files) := by
  rw [all_mode_files_id o.skip_if_marked files h]
  exact folder_loop_eq_all_loop codec o files fs

/-- Witness for the amended C9: an unmarked `a.jpg` is processed
identically by the two drivers. -/
theorem drivers_tally_eq_witness :
    extOk ⟨[], ['a', '.', 'j', 'p', 'g']⟩ = true ∧
    is_marked_d ⟨[], ['a', '.', 'j', 'p', 'g']⟩ = false ∧
    run_folder_loop (fun _ _ => CodecBehavior.saveOk [0])
        ⟨keepChars, 85, false, none, true⟩
        [(⟨[], ['a', '.', 'j', 'p', 'g']⟩, [7, 7])]
        [⟨[], ['a', '.', 'j', 'p', 'g']⟩]
      = run_all_loop (fun _ _ => CodecBehavior.saveOk [0])
        ⟨keepChars, 85, false, none, true⟩
        [(⟨[], ['a', '.', 'j', 'p', 'g']⟩, [7, 7])]
        (all_mode_files
          (⟨keepChars, 85, false, none, true⟩ : BakeOpts).skip_if_marked
          [⟨[], ['a', '.', 'j', 'p', 'g']⟩]) :=
  ⟨by decide, by decide,
   drivers_tally_eq (fun _ _ => CodecBehavior.saveOk [0])
     ⟨keepChars, 85, false, none, true⟩
     [(⟨[], ['a', '.', 'j', 'p', 'g']⟩, [7, 7])]
     [⟨[], ['a', '.', 'j', 'p', 'g']⟩] (by decide)⟩

/-! ## C5: the all-mode deletion gate -/

/-- Counterexample to C5 as stated: with deletion enabled, the caller
supplies `" I UNDERSTAND THIS DELETES ORIGINALS"` — not the exact
confirmation phrase (note the leading space) — yet the driver does not
refuse: `confirm.strip()` equals the required phrase, so the batch runs to
completion. -/
theorem run_all_gate_cex :
    (' ' :: required_confirm) ≠ required_confirm ∧
    pyStrip (' ' :: required_confirm) = required_confirm ∧
    run_all_mode (fun _ _ => CodecBehavior.openErr)
        ⟨keepChars, 85, true, none, true⟩ [] [["r"]] (' ' :: required_confirm)
      = AllResult.done [] ⟨0, 0, 0, 0, 0, 0⟩ := by
  refine ⟨by decide, by decide, ?_⟩
  decide

/-- C5 (amended): with deletion enabled the multi-root driver refuses to
run — returning the input filesystem untouched — unless the supplied
phrase equals the required confirmation after stripping surrounding
whitespace; with such a phrase (or with deletion disabled) and at least
one existing default root, the batch runs to completion and produces a
summary. -/
theorem run_all_gate_spec (codec : Codec) (o : BakeOpts) (fs : FS)
    (roots : List (List String)) (confirm : List Char) :
    (o.delete_original_on_win = true → pyStrip confirm ≠ required_confirm →
      run_all_mode codec o fs roots confirm = AllResult.refused fs) ∧
    ((o.delete_original_on_win = false ∨ pyStrip confirm = required_confirm) →
      roots ≠ [] →
      ∃ fs' s, run_all_mode codec o fs roots confirm = AllResult.done fs' s) := by
  constructor
  · intro hd hc
    unfold run_all_mode
    rw [if_pos ⟨hd, hc⟩]
  · intro h hr
    have hgate : ¬ (o.delete_original_on_win = true ∧
        pyStrip confirm ≠ required_confirm) := by
      rintro ⟨hd, hc⟩
      rcases h with h | h
      · rw [h] at hd; cases hd
      · exact hc h
    unfold run_all_mode
    rw [if_neg hgate, if_neg hr]
    exact ⟨_, _, rfl⟩

/-- Witness for the amended C5: a wrong phrase under deletion is refused
with the filesystem untouched; with deletion disabled and one root the
batch completes. -/
theorem run_all_gate_spec_witness :
    run_all_mode (fun _ _ => CodecBehavior.openErr) ⟨keepChars, 85, true, none, true⟩
        [(⟨["r"], ['a', '.', 'j', 'p', 'g']⟩, [4])] [["r"]] ['n', 'o']
      = AllResult.refused [(⟨["r"], ['a', '.', 'j', 'p', 'g']⟩, [4])] ∧
    (∃ fs' s, run_all_mode (fun _ _ => CodecBehavior.openErr)
        ⟨keepChars, 85, false, none, true⟩
        [(⟨["r"], ['a', '.', 'j', 'p', 'g']⟩, [4])] [["r"]] []
      = AllResult.done fs' s) :=
  ⟨(run_all_gate_spec (fun _ _ => CodecBehavior.openErr)
      ⟨keepChars, 85, true, none, true⟩
      [(⟨["r"], ['a', '.', 'j', 'p', 'g']⟩, [4])] [["r"]] ['n', 'o']).1
      rfl (by decide),
   (run_all_gate_spec (fun _ _ => CodecBehavior.openErr)
      ⟨keepChars, 85, false, none, true⟩
      [(⟨["r"], ['a', '.', 'j', 'p', 'g']⟩, [4])] [["r"]] []).2
      (Or.inl rfl) (by decide)⟩
